import Mathlib

/-!
Shallow embedding of the Theia repository slice consisting of
`packages/core/src/browser/label-provider.ts`,
`packages/plugin-ext/src/main/browser/plugin-icon-theme-service.ts` and
`packages/vscode-extensions/src/browser/view/vscx-install-button-component.tsx`.

External collaborators that are not part of the slice (the browser's
`CSS.escape`, the `URI` path machinery behind `toCSSUrl`, monaco) are taken
as parameters of the embedded functions. JavaScript string truthiness is
modelled by `Option String` (absent) together with emptiness checks, and
JavaScript objects/maps by association lists in key-insertion order, which
is the order `for ... in` iterates.
-/

namespace Theia

/-! ### label-provider.ts -/

/-- A `LabelProviderContribution` as consumed by `LabelProvider`: the
`canHandle` priority and the three optional accessors. A contribution whose
optional method is absent behaves like one returning `undefined`, which is
modelled by `none`. -/
structure LabelProviderContribution (α : Type) where
  canHandle : α → Int
  getIcon : α → Option String
  getName : α → Option String
  getLongName : α → Option String

/-- Modelled from the spec: `Prioritizeable` lives outside this repository
slice; the contract documented on `LabelProviderContribution.canHandle`
says contributions are ordered by the returned number if greater than zero,
the highest number first, and the order among equal numbers is undefined.
`insertByPriorityDesc` inserts one value into a descending-sorted list. -/
def insertByPriorityDesc {α : Type} (p : α → Int) (c : α) : List α → List α
  | [] => [c]
  | x :: xs => if p x < p c then c :: x :: xs else x :: insertByPriorityDesc p c xs

/-- Modelled from the spec: keep the values with positive priority, sorted
by priority, highest first. -/
def prioritizeAllSync {α : Type} (values : List α) (p : α → Int) : List α :=
  (values.filter fun v => decide (0 < p v)).foldr (insertByPriorityDesc p) []

namespace LabelProvider

/-- `LabelProvider.findContribution`: prioritize all registered
contributions by their `canHandle` result for the element. -/
def findContribution {α : Type} (contributions : List (LabelProviderContribution α))
    (element : α) : List (LabelProviderContribution α) :=
  prioritizeAllSync contributions fun contrib => contrib.canHandle element

/-- The loop shared by `getIcon`/`getName`/`getLongName`: return the first
value that is not `undefined`, in contribution order. -/
def firstDefined {α : Type} :
    List (LabelProviderContribution α) → (LabelProviderContribution α → Option String) →
    Option String
  | [], _ => none
  | c :: rest, f =>
    match f c with
    | some value => some value
    | none => firstDefined rest f

/-- `LabelProvider.getIcon`. -/
def getIcon {α : Type} (contributions : List (LabelProviderContribution α)) (element : α) :
    String :=
  (firstDefined (findContribution contributions element) fun c => c.getIcon element).getD ""

/-- `LabelProvider.getName`. -/
def getName {α : Type} (contributions : List (LabelProviderContribution α)) (element : α) :
    String :=
  (firstDefined (findContribution contributions element) fun c => c.getName element).getD
    "<unknown>"

/-- `LabelProvider.getLongName`. -/
def getLongName {α : Type} (contributions : List (LabelProviderContribution α)) (element : α) :
    String :=
  (firstDefined (findContribution contributions element) fun c => c.getLongName element).getD ""

end LabelProvider

/-! ### plugin-icon-theme-service.ts : data model -/

/-- `PluginIconDefinition`; in a `RecursivePartial` document each field may
be absent, and absence and the empty string are indistinguishable for every
truthiness test the code performs, so both are modelled by `""`. -/
structure PluginIconDefinition where
  iconPath : String := ""
  fontColor : String := ""
  fontCharacter : String := ""
  fontSize : String := ""
  fontId : String := ""
deriving DecidableEq

/-- One entry of a `PluginFontDefinition.src` array. -/
structure FontSrcLocation where
  path : String := ""
  format : String := ""
deriving DecidableEq

/-- `PluginFontDefinition`. -/
structure PluginFontDefinition where
  id : String := ""
  weight : String := ""
  style : String := ""
  size : String := ""
  src : List FontSrcLocation := []
deriving DecidableEq

/-- `PluginIconsAssociation`. Scalar fields are `Option String` (`none`
models `undefined`); map-valued fields are association lists in key order
(`none` models an absent map). -/
structure PluginIconsAssociation where
  folder : Option String := none
  file : Option String := none
  folderExpanded : Option String := none
  rootFolder : Option String := none
  rootFolderExpanded : Option String := none
  folderNames : Option (List (String × String)) := none
  folderNamesExpanded : Option (List (String × String)) := none
  fileExtensions : Option (List (String × String)) := none
  fileNames : Option (List (String × String)) := none
  languageIds : Option (List (String × String)) := none

/-- `PluginIconThemeDocument` as produced by parsing the theme JSON: the
inherited association fields plus `iconDefinitions` (possibly absent in a
`RecursivePartial` document), `fonts`, `light` and `highContrast`. -/
structure PluginIconThemeDocument where
  iconDefinitions : Option (List (String × PluginIconDefinition)) := none
  fonts : Option (List PluginFontDefinition) := none
  assoc : PluginIconsAssociation := {}
  light : Option PluginIconsAssociation := none
  highContrast : Option PluginIconsAssociation := none

/-- JavaScript object property lookup `obj[key]` over an association list. -/
def jsGet {α : Type} : List (String × α) → String → Option α
  | [], _ => none
  | (k, v) :: rest, key => if k = key then some v else jsGet rest key

/-- JavaScript `a || b` on possibly-absent strings: the empty string is
falsy, so it also falls through to `b`. -/
def jsOr (a b : Option String) : Option String :=
  match a with
  | some s => if s.isEmpty then b else some s
  | none => b

/-- JavaScript `String.prototype.toLowerCase` (character-wise lowering). -/
def toLowerCase (s : String) : String :=
  String.mk (s.data.map Char.toLower)

namespace PluginIconTheme

def fileIcon : String := "theia-plugin-file-icon"
def folderIcon : String := "theia-plugin-folder-icon"
def folderExpandedIcon : String := "theia-plugin-folder-expanded-icon"
def rootFolderIcon : String := "theia-plugin-root-folder-icon"
def rootFolderExpandedIcon : String := "theia-plugin-root-folder-expanded-icon"

/-- `folderNameIcon`; `escapeCSS` delegates to the browser's `CSS.escape`
and is therefore a parameter. -/
def folderNameIcon (escapeCSS : String → String) (folderName : String) : String :=
  "theia-plugin-" ++ escapeCSS (toLowerCase folderName) ++ "-folder-name-icon"

/-- `expandedFolderNameIcon`. -/
def expandedFolderNameIcon (escapeCSS : String → String) (folderName : String) : String :=
  "theia-plugin-" ++ escapeCSS (toLowerCase folderName) ++ "-expanded-folder-name-icon"

/-- JavaScript `fileExtension.split('.')` on the character list of the
string: splitting at every dot, never returning the empty list. -/
def splitOnDot : List Char → List (List Char)
  | [] => [[]]
  | c :: cs =>
    if c = '.' then [] :: splitOnDot cs
    else
      match splitOnDot cs with
      | [] => [[c]]
      | s :: ss => (c :: s) :: ss

/-- JavaScript `segments.join('.')`. -/
def joinDot : List (List Char) → List Char
  | [] => []
  | [s] => s
  | s :: ss => s ++ '.' :: joinDot ss

/-- `fileExtensionIcon`: one class per dot-separated suffix of the
extension, then the generic extension class. -/
def fileExtensionIcon (escapeCSS : String → String) (fileExtension : String) : List String :=
  let segments := splitOnDot fileExtension.data
  if segments.isEmpty then []
  else
    ((List.range segments.length).map fun i =>
      "theia-plugin-" ++ escapeCSS (String.mk (joinDot (segments.drop i))) ++ "-ext-file-icon")
    ++ ["theia-plugin-ext-file-icon"]

/-- JavaScript `fileName.substr(fileName.indexOf('.') + 1)` combined with
the `indexOf !== -1` test: the characters after the first dot, or `none`
when there is no dot. -/
def afterFirstDot : List Char → Option (List Char)
  | [] => none
  | c :: cs => if c = '.' then some cs else afterFirstDot cs

/-- `fileNameIcon`: the lowercased-name class, then, when the name has an
extension, the extension classes. -/
def fileNameIcon (escapeCSS : String → String) (fileName : String) : List String :=
  let fn := toLowerCase fileName
  let icons :=
    match afterFirstDot fn.data with
    | some rest => fileExtensionIcon escapeCSS (String.mk rest)
    | none => []
  ("theia-plugin-" ++ escapeCSS fn ++ "-file-name-icon") :: icons

/-- `languageIcon`. -/
def languageIcon (escapeCSS : String → String) (languageId : String) : String :=
  "theia-plugin-" ++ escapeCSS languageId ++ "-lang-file-icon"

/-- A truthiness-guarded `accept` call for a scalar association field:
`if (field) accept(field, selector)`. -/
def acceptOptStr (o : Option String) (selector : String) : List (String × String) :=
  match o with
  | some definitionId => if definitionId.isEmpty then [] else [(definitionId, selector)]
  | none => []

/-- `collectSelectors`, reified as the ordered list of
`(definitionId, selector)` pairs passed to `accept`. Note that the source
guards the `languageIds` loop with `if (fileExtensions)`. -/
def collectSelectors (escapeCSS : String → String) (associations : PluginIconsAssociation) :
    List (String × String) :=
  acceptOptStr associations.folder ("." ++ folderIcon)
  ++ acceptOptStr associations.folderExpanded ("." ++ folderExpandedIcon)
  ++ acceptOptStr (jsOr associations.rootFolder associations.folder) ("." ++ rootFolderIcon)
  ++ acceptOptStr (jsOr associations.rootFolderExpanded associations.folderExpanded)
      ("." ++ rootFolderExpandedIcon)
  ++ acceptOptStr associations.file ("." ++ fileIcon)
  ++ (associations.folderNames.getD []).map
      (fun p => (p.2, "." ++ folderNameIcon escapeCSS p.1 ++ "." ++ folderIcon))
  ++ (associations.folderNamesExpanded.getD []).map
      (fun p => (p.2, "." ++ expandedFolderNameIcon escapeCSS p.1 ++ "." ++ folderExpandedIcon))
  ++ (associations.fileNames.getD []).map
      (fun p => (p.2,
        (fileNameIcon escapeCSS p.1).foldl (fun r v => r ++ "." ++ v) "" ++ "." ++ fileIcon))
  ++ (associations.fileExtensions.getD []).map
      (fun p => (p.2,
        (fileExtensionIcon escapeCSS p.1).foldl (fun r v => r ++ "." ++ v) "" ++ "." ++ fileIcon))
  ++ (if associations.fileExtensions.isSome then
        (associations.languageIds.getD []).map
          (fun p => (p.2, "." ++ languageIcon escapeCSS p.1 ++ "." ++ fileIcon))
      else [])

/-- The three theme types `collectSelectors` is invoked for in `load`. -/
inductive ThemeType where
  | dark
  | light
  | hc
deriving DecidableEq

def themeTypeName : ThemeType → String
  | .dark => "dark"
  | .light => "light"
  | .hc => "hc"

/-- `Map.set` semantics: updating an existing key keeps its position,
a new key is appended, matching JavaScript `Map` iteration order. -/
def mapSet {α : Type} : List (String × α) → String → α → List (String × α)
  | [], key, v => [(key, v)]
  | (k, w) :: rest, key, v =>
    if k = key then (key, v) :: rest else (k, w) :: mapSet rest key v

/-- `acceptSelector` from `load`: drop ids absent from `iconDefinitions`,
scope non-dark selectors under the theme-type class, and append to the
definition's selector list. -/
def acceptSelector (iconDefinitions : List (String × PluginIconDefinition)) (tt : ThemeType)
    (m : List (String × List String)) (definitionId selector : String) :
    List (String × List String) :=
  if (jsGet iconDefinitions definitionId).isNone then m
  else
    let selectors := (jsGet m definitionId).getD []
    let selector :=
      if tt = .dark then selector else ".theia-" ++ themeTypeName tt ++ " " ++ selector
    mapSet m definitionId (selectors ++ [selector])

/-- One `collectSelectors(assoc, acceptSelector.bind(undefined, tt))` call
folded into the `definitionSelectors` map. -/
def collectInto (escapeCSS : String → String)
    (iconDefinitions : List (String × PluginIconDefinition)) (tt : ThemeType)
    (associations : PluginIconsAssociation) (m : List (String × List String)) :
    List (String × List String) :=
  (collectSelectors escapeCSS associations).foldl
    (fun m p => acceptSelector iconDefinitions tt m p.1 p.2) m

/-- The `definitionSelectors` map built by `load`: the document's own
associations as `dark`, then `light`, then `highContrast`. -/
def definitionSelectors (escapeCSS : String → String)
    (iconDefinitions : List (String × PluginIconDefinition)) (doc : PluginIconThemeDocument) :
    List (String × List String) :=
  let m := collectInto escapeCSS iconDefinitions .dark doc.assoc []
  let m := match doc.light with
    | some a => collectInto escapeCSS iconDefinitions .light a m
    | none => m
  match doc.highContrast with
  | some a => collectInto escapeCSS iconDefinitions .hc a m
  | none => m

/-- `toCSSUrl`; the `URI` resolution, relativization and encoding live
outside the slice and are the `resolveUrl` parameter, which yields `none`
for a falsy `relativePath`. -/
def toCSSUrl (resolveUrl : String → Option String) (iconPath : String) : Option String :=
  if iconPath.isEmpty then none else resolveUrl iconPath

/-- The `src` accumulator of the font loop in `load`. -/
def fontSrc (resolveUrl : String → Option String) (locations : List FontSrcLocation) : String :=
  locations.foldl
    (fun src loc =>
      if loc.path.isEmpty then src
      else
        match toCSSUrl resolveUrl loc.path with
        | none => src
        | some cssUrl =>
          (if src.isEmpty then src else src ++ ", ")
            ++ cssUrl ++ " format(\x27" ++ loc.format ++ "\x27)")
    ""

/-- The `@font-face` block emitted for one font, or `""` when its `src`
accumulator stayed empty. -/
def fontFaceRule (resolveUrl : String → Option String) (font : PluginFontDefinition) : String :=
  let src := fontSrc resolveUrl font.src
  if src.isEmpty then ""
  else
    "@font-face \x7b\n    src: " ++ src ++ ";\n    font-family: \x27" ++ font.id
      ++ "\x27;\n    font-weight: " ++ font.weight ++ ";\n    font-style: " ++ font.style
      ++ ";\n\x7d\n"

/-- The fonts part of the stylesheet: each font's `@font-face` block and
the first font's global rule. -/
def fontsSection (resolveUrl : String → Option String)
    (fonts : Option (List PluginFontDefinition)) : String :=
  match fonts with
  | none => ""
  | some fs =>
    (fs.foldl (fun acc font => acc ++ fontFaceRule resolveUrl font) "")
      ++ (match fs.head? with
          | some firstFont =>
            if firstFont.id.isEmpty then ""
            else
              "." ++ fileIcon ++ "::before, ." ++ folderIcon ++ "::before, ."
                ++ rootFolderIcon ++ "::before \x7b\n    font-family: \x27" ++ firstFont.id
                ++ "\x27;\n    font-size: "
                ++ (if firstFont.size.isEmpty then "150%" else firstFont.size) ++ "\n\x7d\n"
          | none => "")

/-- The `background-image` rule for one definition, or `""` when
`toCSSUrl` yields nothing. -/
def backgroundRule (resolveUrl : String → Option String) (d : PluginIconDefinition)
    (selectors : List String) : String :=
  match toCSSUrl resolveUrl d.iconPath with
  | none => ""
  | some cssUrl =>
    String.intercalate ", " selectors
      ++ " \x7b\n    display: inline-block;\n    width: 16px;\n    height: 16px;\n    background-size: 16px;\n    background-image: "
      ++ cssUrl ++ ";\n\x7d\n"

/-- The `::before` font rule for one definition, emitted when
`fontCharacter` or `fontColor` is truthy. -/
def fontCharacterRule (d : PluginIconDefinition) (selectors : List String) : String :=
  if d.fontCharacter.isEmpty ∧ d.fontColor.isEmpty then ""
  else
    let body :=
      (if d.fontColor.isEmpty then "" else " color: " ++ d.fontColor ++ ";")
        ++ (if d.fontCharacter.isEmpty then ""
            else " content: \x27" ++ d.fontCharacter ++ "\x27;")
        ++ (if d.fontSize.isEmpty then "" else " font-size: " ++ d.fontSize ++ ";")
        ++ (if d.fontId.isEmpty then "" else " font-family: " ++ d.fontId ++ ";")
    String.intercalate ", " (selectors.map fun s => s ++ "::before") ++ " \x7b" ++ body
      ++ " \x7d\n"

/-- The per-definition CSS text of the final loop of `load`, keyed by
definition id in `definitionSelectors` iteration order. -/
def ruleBlocks (resolveUrl : String → Option String)
    (iconDefinitions : List (String × PluginIconDefinition))
    (m : List (String × List String)) : List (String × String) :=
  m.map fun p =>
    (p.1,
      match jsGet iconDefinitions p.1 with
      | none => ""
      | some d => backgroundRule resolveUrl d p.2 ++ fontCharacterRule d p.2)

/-- The whole stylesheet `load` computes for a parsed document: empty when
`iconDefinitions` is absent, otherwise the fonts section followed by the
per-definition rules. -/
def computeStyleSheet (escapeCSS : String → String) (resolveUrl : String → Option String)
    (doc : PluginIconThemeDocument) : String :=
  match doc.iconDefinitions with
  | none => ""
  | some iconDefinitions =>
    let m := definitionSelectors escapeCSS iconDefinitions doc
    fontsSection resolveUrl doc.fonts
      ++ (ruleBlocks resolveUrl iconDefinitions m).foldl (fun acc p => acc ++ p.2) ""

/-- `load` as a transition on the `styleSheetContent` field: the result
state paired with whether the theme file was read. A defined content makes
the call return immediately; otherwise the stylesheet is computed from the
file's parsed document. -/
def load (escapeCSS : String → String) (resolveUrl : String → Option String)
    (doc : PluginIconThemeDocument) (styleSheetContent : Option String) :
    Option String × Bool :=
  match styleSheetContent with
  | some s => (some s, false)
  | none => (some (computeStyleSheet escapeCSS resolveUrl doc), true)

end PluginIconTheme

/-! ### plugin-icon-theme-service.ts : PluginIconThemeService -/

/-- What `iconThemeService.getDefinition(iconThemeService.current)` can be:
a `PluginIconTheme` instance, some other icon theme, or `undefined`. -/
inductive CurrentThemeDefinition where
  | plugin
  | builtin
  | undef
deriving DecidableEq

/-- The discriminations `canHandle` performs on its element: whether it is
a `URI` instance (and then its scheme), and the `FileStat.is` /
`FileStatNode.is` structural tests. -/
structure Element where
  uriScheme : Option String := none
  isFileStat : Bool := false
  isFileStatNode : Bool := false
deriving DecidableEq

def maxSafeInteger : Int := 9007199254740991

namespace PluginIconThemeService

/-- `PluginIconThemeService.canHandle`. -/
def canHandle (current : CurrentThemeDefinition) (element : Element) : Int :=
  if current = .plugin ∧
      (element.uriScheme = some "file" ∨ element.isFileStat = true ∨
        element.isFileStatNode = true) then
    maxSafeInteger
  else 0

/-- `PluginIconThemeService.getIcon`; `themeGetIcon` stands for
`current.getIcon(element)` on the current `PluginIconTheme` instance. -/
def getIcon (themeGetIcon : Element → String) (current : CurrentThemeDefinition)
    (element : Element) : Option String :=
  match current with
  | .plugin => some (themeGetIcon element)
  | _ => none

end PluginIconThemeService

/-! ### vscx-install-button-component.tsx -/

/-- The fields of `VSCodeExtensionPartResolved` the button reads. -/
structure VSCodeExtensionPart where
  installed : Bool := false
  busy : Bool := false
  outdated : Bool := false
deriving DecidableEq

/-- The service calls the click handler can issue. -/
inductive ServiceCall where
  | install
  | uninstall
deriving DecidableEq

/-- The `onClick` handler of the install button: a transition on the
extension paired with the list of service calls made. When the extension is
busy nothing happens; otherwise `busy` is set and `uninstall` or `install`
is called according to `installed`. -/
def handleInstallButtonClick (extension : VSCodeExtensionPart) :
    VSCodeExtensionPart × List ServiceCall :=
  if extension.busy then (extension, [])
  else if extension.installed then
    ({ extension with busy := true }, [ServiceCall.uninstall])
  else
    ({ extension with busy := true }, [ServiceCall.install])

/-! ## Theorems -/

/-! ### Prioritization of label-provider contributions -/

theorem mem_insertByPriorityDesc {α : Type} (p : α → Int) (c y : α) (l : List α) :
    y ∈ insertByPriorityDesc p c l ↔ y = c ∨ y ∈ l := by
  induction l with
  | nil => simp [insertByPriorityDesc]
  | cons x xs ih =>
    simp only [insertByPriorityDesc]
    split
    · simp [List.mem_cons]
    · simp only [List.mem_cons, ih]
      tauto

theorem pairwise_insertByPriorityDesc {α : Type} (p : α → Int) (c : α) (l : List α)
    (h : l.Pairwise fun a b => p b ≤ p a) :
    (insertByPriorityDesc p c l).Pairwise fun a b => p b ≤ p a := by
  induction l with
  | nil => simp [insertByPriorityDesc]
  | cons x xs ih =>
    rw [List.pairwise_cons] at h
    obtain ⟨hx, hxs⟩ := h
    simp only [insertByPriorityDesc]
    split
    · rename_i hlt
      refine List.Pairwise.cons ?_ (List.Pairwise.cons hx hxs)
      intro y hy
      rcases List.mem_cons.mp hy with rfl | hy
      · exact le_of_lt hlt
      · exact le_trans (hx y hy) (le_of_lt hlt)
    · rename_i hnlt
      push_neg at hnlt
      refine List.Pairwise.cons ?_ (ih hxs)
      intro y hy
      rcases (mem_insertByPriorityDesc p c y xs).mp hy with rfl | hy
      · exact hnlt
      · exact hx y hy

theorem mem_prioritizeAllSync {α : Type} (values : List α) (p : α → Int) (y : α) :
    y ∈ prioritizeAllSync values p ↔ y ∈ values ∧ 0 < p y := by
  unfold prioritizeAllSync
  have hfold : ∀ l : List α,
      y ∈ l.foldr (insertByPriorityDesc p) [] ↔ y ∈ l := by
    intro l
    induction l with
    | nil => simp
    | cons x xs ih => simp [List.foldr_cons, mem_insertByPriorityDesc, ih]
  rw [hfold, List.mem_filter]
  simp

theorem pairwise_prioritizeAllSync {α : Type} (values : List α) (p : α → Int) :
    (prioritizeAllSync values p).Pairwise fun a b => p b ≤ p a := by
  unfold prioritizeAllSync
  generalize values.filter _ = l
  induction l with
  | nil => simp
  | cons x xs ih => exact pairwise_insertByPriorityDesc p x _ ih

theorem firstDefined_eq_none {α : Type} (l : List (LabelProviderContribution α))
    (f : LabelProviderContribution α → Option String) (h : ∀ c ∈ l, f c = none) :
    LabelProvider.firstDefined l f = none := by
  induction l with
  | nil => rfl
  | cons c rest ih =>
    have hc := h c (List.mem_cons_self c rest)
    simp only [LabelProvider.firstDefined, hc]
    exact ih fun d hd => h d (List.mem_cons_of_mem c hd)

theorem head_of_dominant {α : Type} (p : α → Int) (l : List α) (c : α)
    (hsort : l.Pairwise fun a b => p b ≤ p a) (hc : c ∈ l)
    (hdom : ∀ y ∈ l, y = c ∨ p y < p c) : ∃ rest, l = c :: rest := by
  cases l with
  | nil => cases hc
  | cons x t =>
    rcases hdom x (List.mem_cons_self x t) with rfl | hlt
    · exact ⟨t, rfl⟩
    · rcases List.mem_cons.mp hc with rfl | hct
      · exact absurd hlt (lt_irrefl _)
      · have hle := (List.pairwise_cons.mp hsort).1 c hct
        exact absurd (lt_of_le_of_lt hle hlt) (lt_irrefl _)

/-- C2: `LabelProvider.getIcon` and `LabelProvider.getName` consult the
contributions ordered by their `canHandle` result, keeping only those with
a result greater than zero, highest first, and return the first defined
value in that order; a contribution with a higher positive `canHandle`
number wins over one with a lower positive number. -/
theorem labelProvider_priority {α : Type} (contributions : List (LabelProviderContribution α))
    (element : α) (c : LabelProviderContribution α)
    (hc : c ∈ contributions) (hpos : 0 < c.canHandle element)
    (hdom : ∀ c' ∈ contributions, c' = c ∨ c'.canHandle element < c.canHandle element) :
    (∀ c', c' ∈ LabelProvider.findContribution contributions element ↔
        c' ∈ contributions ∧ 0 < c'.canHandle element) ∧
    (LabelProvider.findContribution contributions element).Pairwise
      (fun a b => b.canHandle element ≤ a.canHandle element) ∧
    LabelProvider.getName contributions element =
      (LabelProvider.firstDefined (LabelProvider.findContribution contributions element)
          fun c' => c'.getName element).getD "<unknown>" ∧
    LabelProvider.getIcon contributions element =
      (LabelProvider.firstDefined (LabelProvider.findContribution contributions element)
          fun c' => c'.getIcon element).getD "" ∧
    (∀ v, c.getName element = some v → LabelProvider.getName contributions element = v) ∧
    (∀ v, c.getIcon element = some v → LabelProvider.getIcon contributions element = v) := by
  have hmem : ∀ c', c' ∈ LabelProvider.findContribution contributions element ↔
      c' ∈ contributions ∧ 0 < c'.canHandle element := fun c' =>
    mem_prioritizeAllSync contributions (fun contrib => contrib.canHandle element) c'
  have hsort := pairwise_prioritizeAllSync contributions fun contrib => contrib.canHandle element
  have hcmem : c ∈ LabelProvider.findContribution contributions element :=
    (hmem c).mpr ⟨hc, hpos⟩
  have hdom' : ∀ y ∈ LabelProvider.findContribution contributions element,
      y = c ∨ y.canHandle element < c.canHandle element := fun y hy =>
    hdom y ((hmem y).mp hy).1
  obtain ⟨rest, hrest⟩ :=
    head_of_dominant (fun c' => c'.canHandle element)
      (LabelProvider.findContribution contributions element) c hsort hcmem hdom'
  refine ⟨hmem, hsort, rfl, rfl, ?_, ?_⟩
  · intro v hv
    unfold LabelProvider.getName
    rw [hrest]
    simp [LabelProvider.firstDefined, hv]
  · intro v hv
    unfold LabelProvider.getIcon
    rw [hrest]
    simp [LabelProvider.firstDefined, hv]

theorem labelProvider_priority_witness :
    LabelProvider.getName (α := Unit)
      [⟨fun _ => (1 : Int), fun _ => none, fun _ => some "low", fun _ => none⟩,
       ⟨fun _ => (5 : Int), fun _ => some "high-icon", fun _ => some "high", fun _ => none⟩]
      () = "high" ∧
    LabelProvider.getIcon (α := Unit)
      [⟨fun _ => (1 : Int), fun _ => none, fun _ => some "low", fun _ => none⟩,
       ⟨fun _ => (5 : Int), fun _ => some "high-icon", fun _ => some "high", fun _ => none⟩]
      () = "high-icon" := by
  have h := labelProvider_priority (α := Unit)
    [⟨fun _ => (1 : Int), fun _ => none, fun _ => some "low", fun _ => none⟩,
     ⟨fun _ => (5 : Int), fun _ => some "high-icon", fun _ => some "high", fun _ => none⟩]
    ()
    ⟨fun _ => (5 : Int), fun _ => some "high-icon", fun _ => some "high", fun _ => none⟩
    (List.mem_cons_of_mem _ (List.mem_cons_self _ _))
    (by decide)
    (by
      intro c' hc'
      rcases List.mem_cons.mp hc' with rfl | hc'
      · right; decide
      · rcases List.mem_cons.mp hc' with rfl | hc'
        · left; rfl
        · cases hc')
  exact ⟨h.2.2.2.2.1 "high" rfl, h.2.2.2.2.2 "high-icon" rfl⟩

/-- C8: `LabelProvider.getName` is total: when no contribution with a
positive `canHandle` result returns a defined name it falls back to
`"<unknown>"`, and under the analogous condition `getIcon` and
`getLongName` return the empty string. -/
theorem labelProvider_fallback {α : Type} (contributions : List (LabelProviderContribution α))
    (element : α) :
    ((∀ c ∈ contributions, 0 < c.canHandle element → c.getName element = none) →
      LabelProvider.getName contributions element = "<unknown>") ∧
    ((∀ c ∈ contributions, 0 < c.canHandle element → c.getIcon element = none) →
      LabelProvider.getIcon contributions element = "") ∧
    ((∀ c ∈ contributions, 0 < c.canHandle element → c.getLongName element = none) →
      LabelProvider.getLongName contributions element = "") := by
  have hmem : ∀ c', c' ∈ LabelProvider.findContribution contributions element →
      c' ∈ contributions ∧ 0 < c'.canHandle element := fun c' h =>
    (mem_prioritizeAllSync contributions (fun contrib => contrib.canHandle element) c').mp h
  refine ⟨?_, ?_, ?_⟩ <;> intro h
  · unfold LabelProvider.getName
    rw [firstDefined_eq_none _ _ fun c hc => h c (hmem c hc).1 (hmem c hc).2]
    rfl
  · unfold LabelProvider.getIcon
    rw [firstDefined_eq_none _ _ fun c hc => h c (hmem c hc).1 (hmem c hc).2]
    rfl
  · unfold LabelProvider.getLongName
    rw [firstDefined_eq_none _ _ fun c hc => h c (hmem c hc).1 (hmem c hc).2]
    rfl

theorem labelProvider_fallback_witness :
    LabelProvider.getName (α := Unit) [] () = "<unknown>" ∧
    LabelProvider.getIcon (α := Unit) [] () = "" ∧
    LabelProvider.getLongName (α := Unit) [] () = "" := by
  have h := labelProvider_fallback (α := Unit) [] ()
  exact ⟨h.1 (by intro c hc; cases hc), h.2.1 (by intro c hc; cases hc),
    h.2.2 (by intro c hc; cases hc)⟩

/-! ### Selector collection -/

/-- C1: contrary to the claim, language associations do not always yield
CSS selectors: the `languageIds` loop of `collectSelectors` is guarded by
`if (fileExtensions)`, so with `languageIds` present but `fileExtensions`
absent no selector is emitted at all, while adding an (even empty)
`fileExtensions` map makes the very same language association emit its
compound selector. -/
theorem collectSelectors_languageIds_requires_fileExtensions :
    PluginIconTheme.collectSelectors (fun s => s)
      { languageIds := some [("typescript", "ts-def")] } = [] ∧
    PluginIconTheme.collectSelectors (fun s => s)
      { fileExtensions := some [], languageIds := some [("typescript", "ts-def")] } =
      [("ts-def", ".theia-plugin-typescript-lang-file-icon.theia-plugin-file-icon")] := by
  constructor <;> rfl

theorem splitOnDot_of_no_dot (s : List Char) (h : '.' ∉ s) :
    PluginIconTheme.splitOnDot s = [s] := by
  induction s with
  | nil => rfl
  | cons c cs ih =>
    have hc : ¬c = '.' := fun h' => h (h' ▸ List.mem_cons_self c cs)
    have hcs : '.' ∉ cs := fun h' => h (List.mem_cons_of_mem c h')
    simp [PluginIconTheme.splitOnDot, hc, ih hcs]

theorem splitOnDot_append_dot (s rest : List Char) (h : '.' ∉ s) :
    PluginIconTheme.splitOnDot (s ++ '.' :: rest) =
      s :: PluginIconTheme.splitOnDot rest := by
  induction s with
  | nil => simp [PluginIconTheme.splitOnDot]
  | cons c cs ih =>
    have hc : ¬c = '.' := fun h' => h (h' ▸ List.mem_cons_self c cs)
    have hcs : '.' ∉ cs := fun h' => h (List.mem_cons_of_mem c h')
    simp [PluginIconTheme.splitOnDot, hc, ih hcs]

theorem splitOnDot_joinDot (segs : List (List Char)) (hne : segs ≠ [])
    (h : ∀ s ∈ segs, '.' ∉ s) :
    PluginIconTheme.splitOnDot (PluginIconTheme.joinDot segs) = segs := by
  induction segs with
  | nil => exact absurd rfl hne
  | cons s ss ih =>
    cases ss with
    | nil =>
      simpa [PluginIconTheme.joinDot] using
        splitOnDot_of_no_dot s (h s (List.mem_cons_self s []))
    | cons s' ss' =>
      have hjoin : PluginIconTheme.joinDot (s :: s' :: ss') =
          s ++ '.' :: PluginIconTheme.joinDot (s' :: ss') := rfl
      rw [hjoin, splitOnDot_append_dot s _ (h s (List.mem_cons_self s _)),
        ih (by simp) fun t ht => h t (List.mem_cons_of_mem s ht)]

/-- C3: for an extension key with dot-separated segments `s1.…​.sn`
(`n ≥ 1`), `fileExtensionIcon` returns the `n` suffix classes in order
followed by the generic `theia-plugin-ext-file-icon` class, and
`collectSelectors` joins them with `theia-plugin-file-icon` into one
compound selector for the extension's definition id. -/
theorem fileExtensionIcon_spec (escapeCSS : String → String) (segs : List (List Char))
    (hne : segs ≠ []) (hdot : ∀ s ∈ segs, '.' ∉ s) :
    (PluginIconTheme.fileExtensionIcon escapeCSS (String.mk (PluginIconTheme.joinDot segs)) =
      ((List.range segs.length).map fun i =>
        "theia-plugin-" ++ escapeCSS (String.mk (PluginIconTheme.joinDot (segs.drop i)))
          ++ "-ext-file-icon")
      ++ ["theia-plugin-ext-file-icon"]) ∧
    (∀ (associations : PluginIconsAssociation) (m : List (String × String)),
      associations.fileExtensions = some m →
      ∀ definitionId, (String.mk (PluginIconTheme.joinDot segs), definitionId) ∈ m →
        (definitionId,
          (PluginIconTheme.fileExtensionIcon escapeCSS
              (String.mk (PluginIconTheme.joinDot segs))).foldl
            (fun r v => r ++ "." ++ v) "" ++ "." ++ PluginIconTheme.fileIcon) ∈
          PluginIconTheme.collectSelectors escapeCSS associations) := by
  have hsplit : PluginIconTheme.splitOnDot
      (String.mk (PluginIconTheme.joinDot segs)).data = segs :=
    splitOnDot_joinDot segs hne hdot
  constructor
  · obtain ⟨s0, ss0, rfl⟩ : ∃ a l, segs = a :: l := by
      cases segs with
      | nil => exact absurd rfl hne
      | cons a l => exact ⟨a, l, rfl⟩
    simp [PluginIconTheme.fileExtensionIcon, hsplit]
  · intro associations m hfe definitionId hm
    have hchunk : (definitionId,
        (PluginIconTheme.fileExtensionIcon escapeCSS
            (String.mk (PluginIconTheme.joinDot segs))).foldl
          (fun r v => r ++ "." ++ v) "" ++ "." ++ PluginIconTheme.fileIcon) ∈
        (associations.fileExtensions.getD []).map fun p =>
          (p.2, (PluginIconTheme.fileExtensionIcon escapeCSS p.1).foldl
            (fun r v => r ++ "." ++ v) "" ++ "." ++ PluginIconTheme.fileIcon) := by
      rw [hfe]
      exact List.mem_map.mpr ⟨(String.mk (PluginIconTheme.joinDot segs), definitionId), hm, rfl⟩
    simp only [PluginIconTheme.collectSelectors, List.mem_append]
    tauto

theorem fileExtensionIcon_spec_witness :
    PluginIconTheme.fileExtensionIcon (fun s => s) "ts" =
      ["theia-plugin-ts-ext-file-icon", "theia-plugin-ext-file-icon"] ∧
    ("ts-def",
      ".theia-plugin-ts-ext-file-icon.theia-plugin-ext-file-icon.theia-plugin-file-icon") ∈
      PluginIconTheme.collectSelectors (fun s => s)
        { fileExtensions := some [("ts", "ts-def")] } := by
  have h := fileExtensionIcon_spec (fun s => s) [['t', 's']] (by decide) (by decide)
  constructor
  · exact h.1.trans (by decide)
  · have h2 := h.2 { fileExtensions := some [("ts", "ts-def")] } [("ts", "ts-def")] rfl
      "ts-def" (by decide)
    have hrw : ("ts-def",
        (PluginIconTheme.fileExtensionIcon (fun s : String => s)
            (String.mk (PluginIconTheme.joinDot [['t', 's']]))).foldl
          (fun r v => r ++ "." ++ v) "" ++ "." ++ PluginIconTheme.fileIcon) =
        (("ts-def",
          ".theia-plugin-ts-ext-file-icon.theia-plugin-ext-file-icon.theia-plugin-file-icon") :
          String × String) := by decide
    exact hrw ▸ h2

theorem afterFirstDot_append (pre post : List Char) (h : '.' ∉ pre) :
    PluginIconTheme.afterFirstDot (pre ++ '.' :: post) = some post := by
  induction pre with
  | nil => simp [PluginIconTheme.afterFirstDot]
  | cons c cs ih =>
    have hc : ¬c = '.' := fun h' => h (h' ▸ List.mem_cons_self c cs)
    have hcs : '.' ∉ cs := fun h' => h (List.mem_cons_of_mem c h')
    simp [PluginIconTheme.afterFirstDot, hc, ih hcs]

theorem afterFirstDot_of_no_dot (s : List Char) (h : '.' ∉ s) :
    PluginIconTheme.afterFirstDot s = none := by
  induction s with
  | nil => rfl
  | cons c cs ih =>
    have hc : ¬c = '.' := fun h' => h (h' ▸ List.mem_cons_self c cs)
    have hcs : '.' ∉ cs := fun h' => h (List.mem_cons_of_mem c h')
    simp [PluginIconTheme.afterFirstDot, hc, ih hcs]

/-- C4: `fileNameIcon` lowercases the name; its first class is always
`theia-plugin-` + escaped lowercased name + `-file-name-icon`; when the
lowercased name contains a dot, the extension classes for the substring
after the first dot are appended, and when it contains no dot only the
file-name class is returned. -/
theorem fileNameIcon_spec (escapeCSS : String → String) (fileName : String) :
    (PluginIconTheme.fileNameIcon escapeCSS fileName).head? =
      some ("theia-plugin-" ++ escapeCSS (toLowerCase fileName) ++ "-file-name-icon") ∧
    (∀ pre post : List Char, (toLowerCase fileName).data = pre ++ '.' :: post → '.' ∉ pre →
      PluginIconTheme.fileNameIcon escapeCSS fileName =
        ("theia-plugin-" ++ escapeCSS (toLowerCase fileName) ++ "-file-name-icon") ::
          PluginIconTheme.fileExtensionIcon escapeCSS (String.mk post)) ∧
    ('.' ∉ (toLowerCase fileName).data →
      PluginIconTheme.fileNameIcon escapeCSS fileName =
        ["theia-plugin-" ++ escapeCSS (toLowerCase fileName) ++ "-file-name-icon"]) := by
  refine ⟨rfl, ?_, ?_⟩
  · intro pre post hdata hpre
    simp only [PluginIconTheme.fileNameIcon]
    rw [hdata, afterFirstDot_append pre post hpre]
  · intro hno
    simp only [PluginIconTheme.fileNameIcon]
    rw [afterFirstDot_of_no_dot _ hno]

theorem fileNameIcon_spec_witness :
    PluginIconTheme.fileNameIcon (fun s => s) "A.txt" =
      ["theia-plugin-a.txt-file-name-icon", "theia-plugin-txt-ext-file-icon",
       "theia-plugin-ext-file-icon"] ∧
    PluginIconTheme.fileNameIcon (fun s => s) "Makefile" =
      ["theia-plugin-makefile-file-name-icon"] := by
  constructor
  · have h := (fileNameIcon_spec (fun s => s) "A.txt").2.1 ['a'] ['t', 'x', 't']
      (by decide) (by decide)
    exact h.trans (by decide)
  · have h := (fileNameIcon_spec (fun s => s) "Makefile").2.2 (by decide)
    exact h.trans (by decide)

/-- C7: when `rootFolder` is absent but `folder` is present,
`collectSelectors` associates the root-folder selector with the plain
folder's definition id; likewise `rootFolderExpanded` falls back to
`folderExpanded`. -/
theorem collectSelectors_rootFolder_fallback (escapeCSS : String → String)
    (associations : PluginIconsAssociation) :
    (associations.rootFolder = none →
      ∀ f, associations.folder = some f → f.isEmpty = false →
        (f, "." ++ PluginIconTheme.rootFolderIcon) ∈
          PluginIconTheme.collectSelectors escapeCSS associations) ∧
    (associations.rootFolderExpanded = none →
      ∀ f, associations.folderExpanded = some f → f.isEmpty = false →
        (f, "." ++ PluginIconTheme.rootFolderExpandedIcon) ∈
          PluginIconTheme.collectSelectors escapeCSS associations) := by
  constructor
  · intro hrf f hf hne
    have hjs : jsOr associations.rootFolder associations.folder = some f := by
      rw [hrf, hf]; rfl
    have hacc : PluginIconTheme.acceptOptStr
        (jsOr associations.rootFolder associations.folder)
        ("." ++ PluginIconTheme.rootFolderIcon) =
        [(f, "." ++ PluginIconTheme.rootFolderIcon)] := by
      rw [hjs]; simp [PluginIconTheme.acceptOptStr, hne]
    simp [PluginIconTheme.collectSelectors, List.mem_append, hacc]
  · intro hrf f hf hne
    have hjs : jsOr associations.rootFolderExpanded associations.folderExpanded = some f := by
      rw [hrf, hf]; rfl
    have hacc : PluginIconTheme.acceptOptStr
        (jsOr associations.rootFolderExpanded associations.folderExpanded)
        ("." ++ PluginIconTheme.rootFolderExpandedIcon) =
        [(f, "." ++ PluginIconTheme.rootFolderExpandedIcon)] := by
      rw [hjs]; simp [PluginIconTheme.acceptOptStr, hne]
    simp [PluginIconTheme.collectSelectors, List.mem_append, hacc]

theorem collectSelectors_rootFolder_fallback_witness :
    ("folder-def", "." ++ PluginIconTheme.rootFolderIcon) ∈
      PluginIconTheme.collectSelectors (fun s => s) { folder := some "folder-def" } ∧
    ("folder-exp-def", "." ++ PluginIconTheme.rootFolderExpandedIcon) ∈
      PluginIconTheme.collectSelectors (fun s => s)
        { folderExpanded := some "folder-exp-def" } :=
  ⟨(collectSelectors_rootFolder_fallback (fun s => s) { folder := some "folder-def" }).1
      rfl "folder-def" rfl rfl,
   (collectSelectors_rootFolder_fallback (fun s => s)
      { folderExpanded := some "folder-exp-def" }).2 rfl "folder-exp-def" rfl rfl⟩

/-! ### Install button -/

/-- C5: a click on the install button does nothing while the extension is
busy; otherwise it sets `busy` and calls `uninstall` when the extension is
installed and `install` when it is not. -/
theorem handleInstallButtonClick_spec (extension : VSCodeExtensionPart) :
    (extension.busy = true → handleInstallButtonClick extension = (extension, [])) ∧
    (extension.busy = false → extension.installed = true →
      handleInstallButtonClick extension =
        ({ extension with busy := true }, [ServiceCall.uninstall])) ∧
    (extension.busy = false → extension.installed = false →
      handleInstallButtonClick extension =
        ({ extension with busy := true }, [ServiceCall.install])) := by
  refine ⟨?_, ?_, ?_⟩ <;> intros <;> simp_all [handleInstallButtonClick]

theorem handleInstallButtonClick_spec_witness :
    handleInstallButtonClick ⟨false, false, false⟩ =
      (⟨false, true, false⟩, [ServiceCall.install]) ∧
    handleInstallButtonClick ⟨true, false, false⟩ =
      (⟨true, true, false⟩, [ServiceCall.uninstall]) ∧
    handleInstallButtonClick ⟨true, true, false⟩ = (⟨true, true, false⟩, []) :=
  ⟨(handleInstallButtonClick_spec ⟨false, false, false⟩).2.2 rfl rfl,
   (handleInstallButtonClick_spec ⟨true, false, false⟩).2.1 rfl rfl,
   (handleInstallButtonClick_spec ⟨true, true, false⟩).1 rfl⟩

/-! ### PluginIconThemeService -/

/-- C6: `PluginIconThemeService.canHandle` returns
`Number.MAX_SAFE_INTEGER` exactly when the current icon theme's definition
is a `PluginIconTheme` and the element is a `file`-scheme URI, a
`FileStat`, or a `FileStatNode`, and `0` in every other case; `getIcon`
returns `undefined` whenever the current theme is not a
`PluginIconTheme`. -/
theorem pluginIconThemeService_canHandle_spec (current : CurrentThemeDefinition)
    (element : Element) :
    (PluginIconThemeService.canHandle current element = maxSafeInteger ↔
      current = CurrentThemeDefinition.plugin ∧
        (element.uriScheme = some "file" ∨ element.isFileStat = true ∨
          element.isFileStatNode = true)) ∧
    (PluginIconThemeService.canHandle current element = maxSafeInteger ∨
      PluginIconThemeService.canHandle current element = 0) ∧
    (∀ themeGetIcon : Element → String, current ≠ CurrentThemeDefinition.plugin →
      PluginIconThemeService.getIcon themeGetIcon current element = none) := by
  by_cases h : current = CurrentThemeDefinition.plugin ∧
      (element.uriScheme = some "file" ∨ element.isFileStat = true ∨
        element.isFileStatNode = true)
  · refine ⟨?_, ?_, ?_⟩
    · simp [PluginIconThemeService.canHandle, h]
    · left; simp [PluginIconThemeService.canHandle, h]
    · intro tg hcur; exact absurd h.1 hcur
  · refine ⟨?_, ?_, ?_⟩
    · simp only [PluginIconThemeService.canHandle, if_neg h]
      constructor
      · intro h0
        exact absurd h0 (by decide)
      · intro hp
        exact absurd hp h
    · right; simp [PluginIconThemeService.canHandle, h]
    · intro tg hcur
      cases current with
      | plugin => exact absurd rfl hcur
      | builtin => rfl
      | undef => rfl

theorem pluginIconThemeService_canHandle_spec_witness :
    PluginIconThemeService.canHandle CurrentThemeDefinition.builtin
      { uriScheme := some "file" } = 0 ∧
    PluginIconThemeService.canHandle CurrentThemeDefinition.plugin
      { uriScheme := some "file" } = maxSafeInteger ∧
    PluginIconThemeService.getIcon (fun _ => "") CurrentThemeDefinition.builtin
      { uriScheme := some "file" } = none := by
  have hb := pluginIconThemeService_canHandle_spec CurrentThemeDefinition.builtin
    { uriScheme := some "file" }
  have hp := pluginIconThemeService_canHandle_spec CurrentThemeDefinition.plugin
    { uriScheme := some "file" }
  refine ⟨?_, ?_, hb.2.2 (fun _ => "") (by decide)⟩
  · rcases hb.2.1 with hmax | h0
    · exact absurd (hb.1.mp hmax).1 (by decide)
    · exact h0
  · exact hp.1.mpr ⟨rfl, Or.inl rfl⟩

/-! ### Stylesheet loading -/

/-- C9: `PluginIconTheme.load` is idempotent: every call completes with a
defined `styleSheetContent`, and a call starting from a defined
`styleSheetContent` returns immediately without reading the theme file and
leaves the content unchanged. -/
theorem load_idempotent (escapeCSS : String → String) (resolveUrl : String → Option String)
    (doc : PluginIconThemeDocument) (styleSheetContent : Option String) :
    ((PluginIconTheme.load escapeCSS resolveUrl doc styleSheetContent).1).isSome = true ∧
    PluginIconTheme.load escapeCSS resolveUrl doc
        (PluginIconTheme.load escapeCSS resolveUrl doc styleSheetContent).1 =
      ((PluginIconTheme.load escapeCSS resolveUrl doc styleSheetContent).1, false) := by
  cases styleSheetContent <;> simp [PluginIconTheme.load]

theorem mem_keys_mapSet {α : Type} (m : List (String × α)) (key : String) (v : α)
    (id : String) (h : id ∈ (PluginIconTheme.mapSet m key v).map Prod.fst) :
    id = key ∨ id ∈ m.map Prod.fst := by
  induction m with
  | nil => simpa [PluginIconTheme.mapSet] using h
  | cons p rest ih =>
    obtain ⟨k, w⟩ := p
    simp only [PluginIconTheme.mapSet] at h
    split at h
    · rcases List.mem_cons.mp h with h1 | h1
      · exact Or.inl h1
      · exact Or.inr (List.mem_cons_of_mem k h1)
    · rcases List.mem_cons.mp h with h1 | h1
      · exact Or.inr (h1 ▸ List.mem_cons_self k _)
      · rcases ih h1 with h2 | h2
        · exact Or.inl h2
        · exact Or.inr (List.mem_cons_of_mem k h2)

theorem acceptSelector_keys (defs : List (String × PluginIconDefinition))
    (tt : PluginIconTheme.ThemeType) (m : List (String × List String))
    (definitionId selector id : String)
    (h : id ∈ (PluginIconTheme.acceptSelector defs tt m definitionId selector).map Prod.fst) :
    id ∈ m.map Prod.fst ∨ (jsGet defs id).isSome = true := by
  simp only [PluginIconTheme.acceptSelector] at h
  split at h
  · exact Or.inl h
  · rename_i hne
    rcases mem_keys_mapSet _ _ _ _ h with rfl | hm
    · right
      cases hjs : jsGet defs id with
      | none => rw [hjs] at hne; exact absurd rfl hne
      | some d => rfl
    · exact Or.inl hm

theorem collectInto_keys (escapeCSS : String → String)
    (defs : List (String × PluginIconDefinition)) (tt : PluginIconTheme.ThemeType)
    (associations : PluginIconsAssociation) (m : List (String × List String))
    (hm : ∀ id ∈ m.map Prod.fst, (jsGet defs id).isSome = true) :
    ∀ id ∈ (PluginIconTheme.collectInto escapeCSS defs tt associations m).map Prod.fst,
      (jsGet defs id).isSome = true := by
  unfold PluginIconTheme.collectInto
  generalize PluginIconTheme.collectSelectors escapeCSS associations = l
  induction l generalizing m with
  | nil => exact hm
  | cons p rest ih =>
    simp only [List.foldl_cons]
    refine ih (PluginIconTheme.acceptSelector defs tt m p.1 p.2) ?_
    intro id hid
    rcases acceptSelector_keys defs tt m p.1 p.2 id hid with h1 | h1
    · exact hm id h1
    · exact h1

theorem definitionSelectors_keys (escapeCSS : String → String)
    (defs : List (String × PluginIconDefinition)) (doc : PluginIconThemeDocument) :
    ∀ id ∈ (PluginIconTheme.definitionSelectors escapeCSS defs doc).map Prod.fst,
      (jsGet defs id).isSome = true := by
  unfold PluginIconTheme.definitionSelectors
  have h0 : ∀ id ∈ ([] : List (String × List String)).map Prod.fst,
      (jsGet defs id).isSome = true := by simp
  have h1 := collectInto_keys escapeCSS defs .dark doc.assoc [] h0
  have h2 : ∀ id ∈ ((match doc.light with
      | some a => PluginIconTheme.collectInto escapeCSS defs .light a
          (PluginIconTheme.collectInto escapeCSS defs .dark doc.assoc [])
      | none => PluginIconTheme.collectInto escapeCSS defs .dark doc.assoc []) :
        List (String × List String)).map Prod.fst,
      (jsGet defs id).isSome = true := by
    cases doc.light with
    | none => exact h1
    | some a => exact collectInto_keys escapeCSS defs .light a _ h1
  cases doc.highContrast with
  | none => exact h2
  | some a => exact collectInto_keys escapeCSS defs .hc a _ h2

/-- C10: every selector `acceptSelector` records, and hence every CSS rule
the synthesizer emits, refers to a definition id present in
`iconDefinitions`; an association naming an undefined icon produces no
selector and no rule. -/
theorem stylesheet_rules_reference_defined_icons (escapeCSS : String → String)
    (resolveUrl : String → Option String)
    (iconDefinitions : List (String × PluginIconDefinition))
    (doc : PluginIconThemeDocument) :
    (∀ id ∈ (PluginIconTheme.definitionSelectors escapeCSS iconDefinitions doc).map Prod.fst,
      (jsGet iconDefinitions id).isSome = true) ∧
    (∀ id, jsGet iconDefinitions id = none →
      id ∉ (PluginIconTheme.definitionSelectors escapeCSS iconDefinitions doc).map Prod.fst ∧
      id ∉ ((PluginIconTheme.ruleBlocks resolveUrl iconDefinitions
              (PluginIconTheme.definitionSelectors escapeCSS iconDefinitions doc)).filter
            (fun p => !p.2.isEmpty)).map Prod.fst) := by
  have hkeys := definitionSelectors_keys escapeCSS iconDefinitions doc
  refine ⟨hkeys, ?_⟩
  intro id hnone
  constructor
  · intro hid
    have := hkeys id hid
    rw [hnone] at this
    exact absurd this (by decide)
  · intro hid
    obtain ⟨p, hp, hpid⟩ := List.mem_map.mp hid
    have hp' := (List.mem_filter.mp hp).1
    obtain ⟨q, hq, hqp⟩ := List.mem_map.mp hp'
    have hq1 : q.1 ∈ (PluginIconTheme.definitionSelectors escapeCSS iconDefinitions
        doc).map Prod.fst := List.mem_map.mpr ⟨q, hq, rfl⟩
    have hsome := hkeys q.1 hq1
    have hqid : q.1 = id := by rw [← hpid, ← hqp]
    rw [hqid, hnone] at hsome
    exact absurd hsome (by decide)

theorem stylesheet_rules_witness :
    "ghost" ∉ (PluginIconTheme.definitionSelectors (fun s => s)
      [("known", {})] { assoc := { file := some "ghost" } }).map Prod.fst :=
  ((stylesheet_rules_reference_defined_icons (fun s => s) (fun _ => none)
      [("known", {})] { assoc := { file := some "ghost" } }).2 "ghost" (by decide)).1

end Theia
